import Mathlib

/-!
Verification of the inactivity watchdog in `pkg/inactivity/inactivity.go`.

The Go type `Inactivity` holds, behind one mutex, the fields
`timeout`, `active` (in-flight request count), `timer` (a `*time.Timer`
created by `time.AfterFunc`, or nil) and `timerActive`.  Every block of
code that runs while holding the mutex is modelled as one atomic step of
a transition system; a run of the watchdog is a list of timestamped
events folded over the state.

A `time.AfterFunc` timer is modelled in two phases, matching Go
semantics: `trigger id` is the runtime expiring the timer (possible at
any instant at or after its deadline; `Timer.Stop` can no longer
prevent the body from running), and `deliver id` is the timer body
acquiring the mutex and executing (possible any time after the
trigger).  Every timer ever created is kept in a list, indexed by
creation order, with status `scheduled` (armed, stoppable),
`pending` (expired, body not yet run) or `dead` (stopped, or body run).

The field `fires` records the times at which the `onInactive` callback
was invoked, most recent first; its length is the number of
invocations.
-/

set_option autoImplicit false

namespace Inactivity

/-- Status of one `time.Timer` created by `time.AfterFunc`. -/
inductive TStatus
  | scheduled
  | pending
  | dead
deriving DecidableEq

/-- One timer: the absolute instant it is due, and its current status. -/
structure TimerC where
  deadline : Int
  status : TStatus
deriving DecidableEq

/-- Kinds of atomic events: request entry (`increment`), request exit
(`decrement`), `Shutdown`, runtime expiry of timer `id`, and execution
of timer `id`'s body under the mutex. -/
inductive EvKind
  | enter
  | exit
  | stop
  | trigger (id : Nat)
  | deliver (id : Nat)
deriving DecidableEq

/-- A timestamped event. -/
structure TEv where
  time : Int
  kind : EvKind
deriving DecidableEq

/-- The watchdog state: the mutex-protected fields of `Inactivity`,
the log of all timers ever created, and the invocation times of
`onInactive`. `timerRef` is the `timer` field (`none` = nil). -/
structure WD where
  timeout : Int
  active : Int
  timerActive : Bool
  timerRef : Option Nat
  timers : List TimerC
  fires : List Int
deriving DecidableEq

/-- Overwrite the status of the timer at index `id` (out of range: no
change). -/
def setStatus : List TimerC → Nat → TStatus → List TimerC
  | [], _, _ => []
  | c :: cs, 0, st => ⟨c.deadline, st⟩ :: cs
  | c :: cs, Nat.succ n, st => c :: setStatus cs n st

/-- `Timer.Stop()`: cancels the timer only if it has not yet expired. -/
def cancelTimer (ts : List TimerC) (id : Nat) : List TimerC :=
  match ts[id]? with
  | some c => if c.status = TStatus.scheduled then setStatus ts id TStatus.dead else ts
  | none => ts

/-- `New(timeout, onInactive)` called at instant `t0`: zero in-flight
requests, `timerActive = true`, and one timer armed for `t0 + timeout`
(the code performs no validation of `timeout`). -/
def mkNew (timeout t0 : Int) : WD :=
  { timeout := timeout
    active := 0
    timerActive := true
    timerRef := some 0
    timers := [⟨t0 + timeout, TStatus.scheduled⟩]
    fires := [] }

/-- One atomic step of the watchdog, translated line by line from
`inactivity.go`:
* `enter` = `increment`: `active++`; if `timer != nil` then
  `timer.Stop(); timer = nil; timerActive = false`.
* `exit` = `decrement`: `active--`; if `active == 0 && !timerActive`
  then arm a fresh timer for `timeout` from now.
* `stop` = `Shutdown`: if `timer != nil` then `timer.Stop()` (the
  `timer` and `timerActive` fields are left unchanged).
* `trigger id`: the runtime expires timer `id` (only has an effect on a
  `scheduled` timer).
* `deliver id`: the body of timer `id` runs under the mutex: if
  `active == 0` then `onInactive()`; `timerActive = false`;
  `timer = nil` (only has an effect on a `pending` timer). -/
def step (s : WD) (e : TEv) : WD :=
  match e.kind with
  | EvKind.enter =>
      match s.timerRef with
      | some id =>
          { s with active := s.active + 1
                   timers := cancelTimer s.timers id
                   timerRef := none
                   timerActive := false }
      | none => { s with active := s.active + 1 }
  | EvKind.exit =>
      if s.active - 1 = 0 ∧ s.timerActive = false then
        { s with active := s.active - 1
                 timerActive := true
                 timerRef := some s.timers.length
                 timers := s.timers ++ [⟨e.time + s.timeout, TStatus.scheduled⟩] }
      else { s with active := s.active - 1 }
  | EvKind.stop =>
      match s.timerRef with
      | some id => { s with timers := cancelTimer s.timers id }
      | none => s
  | EvKind.trigger id =>
      match s.timers[id]? with
      | some c =>
          if c.status = TStatus.scheduled then
            { s with timers := setStatus s.timers id TStatus.pending }
          else s
      | none => s
  | EvKind.deliver id =>
      match s.timers[id]? with
      | some c =>
          if c.status = TStatus.pending then
            { s with timers := setStatus s.timers id TStatus.dead
                     fires := if s.active = 0 then e.time :: s.fires else s.fires
                     timerActive := false
                     timerRef := none }
          else s
      | none => s

/-- Run a sequence of events from a state. -/
def run (s : WD) (tr : List TEv) : WD := tr.foldl step s

/-- Whether an event can actually occur in state `s`: request exits are
paired with earlier entries (`0 < active`), a timer expires only while
`scheduled` and not before its deadline, and a timer body runs only
after its expiry. -/
def okEvent (s : WD) (e : TEv) : Bool :=
  match e.kind with
  | EvKind.enter => true
  | EvKind.exit => decide (0 < s.active)
  | EvKind.stop => true
  | EvKind.trigger id =>
      match s.timers[id]? with
      | some c => decide (c.status = TStatus.scheduled) && decide (c.deadline ≤ e.time)
      | none => false
  | EvKind.deliver id =>
      match s.timers[id]? with
      | some c => decide (c.status = TStatus.pending)
      | none => false

/-- A well-formed event sequence starting from state `s` at instant
`now`: timestamps do not decrease and every event is possible in the
state where it occurs. -/
def wfFrom (s : WD) (now : Int) : List TEv → Bool
  | [] => true
  | e :: rest => decide (now ≤ e.time) && okEvent s e && wfFrom (step s e) e.time rest

/-- Number of request-entry events of a sequence. -/
def countEnter (tr : List TEv) : Nat :=
  tr.countP (fun e => decide (e.kind = EvKind.enter))

/-- Number of request-exit events of a sequence. -/
def countExit (tr : List TEv) : Nat :=
  tr.countP (fun e => decide (e.kind = EvKind.exit))

/-- A timer that can still cause a callback invocation. -/
def statusLive : TStatus → Bool
  | TStatus.scheduled => true
  | TStatus.pending => true
  | TStatus.dead => false

/-- Number of live (scheduled or pending) timers. -/
def liveCount (ts : List TimerC) : Nat :=
  ts.countP (fun c => statusLive c.status)

/-- Potential used to bound the number of callback invocations: every
invocation consumes a live timer, and live timers are created only at
construction and when the in-flight count drains back to zero. -/
def phi (s : WD) : Int :=
  (s.fires.length : Int) + (liveCount s.timers : Int) + (s.active.toNat : Int)

/-- The state machine invariant of claim C10: the `timerActive` flag
mirrors whether the `timer` field is non-nil, and while requests are in
flight both are disarmed (`timerActive = false`, `timer = nil`). -/
def Inv (s : WD) : Prop :=
  s.timerActive = s.timerRef.isSome ∧
  (0 < s.active → s.timerActive = false ∧ s.timerRef = none)

/-- Outcome of the inner handler of `Wrap`: a normal return, or a raised
panic. -/
inductive HOutcome
  | normal
  | raised
deriving DecidableEq

/-- Execution of one request through the handler returned by `Wrap`:
`increment` runs on entry; the inner handler runs and either returns or
panics; the deferred `decrement` runs on either path (Go `defer`
semantics) and the inner outcome propagates unchanged. -/
def wrapServe (s : WD) (tIn tOut : Int) (inner : HOutcome) : HOutcome × WD :=
  let s1 := step s ⟨tIn, EvKind.enter⟩
  match inner with
  | HOutcome.normal => (HOutcome.normal, step s1 ⟨tOut, EvKind.exit⟩)
  | HOutcome.raised => (HOutcome.raised, step s1 ⟨tOut, EvKind.exit⟩)

/-- A state in which the timer has fired while one request was in
flight and its body has run without invoking the callback: used to
exhibit what happens when the in-flight count then drains to zero. -/
def sDrain : WD :=
  run (mkNew 10 0) [⟨10, EvKind.trigger 0⟩, ⟨10, EvKind.enter⟩, ⟨11, EvKind.deliver 0⟩]

theorem run_nil (s : WD) : run s [] = s := rfl

theorem run_cons (s : WD) (e : TEv) (tr : List TEv) :
    run s (e :: tr) = run (step s e) tr := rfl

theorem run_append (s : WD) (t1 t2 : List TEv) :
    run s (t1 ++ t2) = run (run s t1) t2 :=
  List.foldl_append step s t1 t2

theorem setStatus_out {ts : List TimerC} {id : Nat} (st : TStatus)
    (h : ts[id]? = none) : setStatus ts id st = ts := by
  induction ts generalizing id with
  | nil => rfl
  | cons c cs ih =>
      cases id with
      | zero => rw [List.getElem?_cons_zero] at h; exact absurd h (by simp)
      | succ n =>
          rw [List.getElem?_cons_succ] at h
          simp [setStatus, ih h]

theorem setStatus_get?_eq {ts : List TimerC} {id : Nat} {c : TimerC} (st : TStatus)
    (h : ts[id]? = some c) :
    (setStatus ts id st)[id]? = some ⟨c.deadline, st⟩ := by
  induction ts generalizing id with
  | nil => exact absurd h (by simp)
  | cons c0 cs ih =>
      cases id with
      | zero =>
          rw [List.getElem?_cons_zero, Option.some.injEq] at h
          subst h
          simp [setStatus, List.getElem?_cons_zero]
      | succ n =>
          rw [List.getElem?_cons_succ] at h
          simp only [setStatus, List.getElem?_cons_succ]
          exact ih h

theorem liveCount_setStatus {ts : List TimerC} {id : Nat} {c : TimerC} (st : TStatus)
    (h : ts[id]? = some c) :
    (liveCount (setStatus ts id st) : Int) =
      (liveCount ts : Int) + (if statusLive st then 1 else 0)
        - (if statusLive c.status then 1 else 0) := by
  induction ts generalizing id with
  | nil => exact absurd h (by simp)
  | cons c0 cs ih =>
      cases id with
      | zero =>
          rw [List.getElem?_cons_zero, Option.some.injEq] at h
          subst h
          simp only [setStatus, liveCount, List.countP_cons, List.countP_nil]
          split_ifs <;> push_cast <;> omega
      | succ n =>
          rw [List.getElem?_cons_succ] at h
          have e1 := ih h
          simp only [setStatus, liveCount, List.countP_cons] at e1 ⊢
          split_ifs at e1 ⊢ <;> push_cast at e1 ⊢ <;> omega

theorem liveCount_cancel_le (ts : List TimerC) (id : Nat) :
    liveCount (cancelTimer ts id) ≤ liveCount ts := by
  rcases h : ts[id]? with _ | c
  · simp [cancelTimer, h]
  · by_cases h2 : c.status = TStatus.scheduled
    · have e1 := @liveCount_setStatus ts id c TStatus.dead h
      rw [h2] at e1
      simp [statusLive] at e1
      simp only [cancelTimer, h, h2, if_pos]
      omega
    · simp [cancelTimer, h, h2]

theorem liveCount_append (ts : List TimerC) (c : TimerC) :
    liveCount (ts ++ [c]) = liveCount ts + (if statusLive c.status then 1 else 0) := by
  simp [liveCount, List.countP_append, List.countP_cons]

theorem countEnter_cons (e : TEv) (tr : List TEv) :
    countEnter (e :: tr) = countEnter tr + (if e.kind = EvKind.enter then 1 else 0) := by
  simp [countEnter, List.countP_cons]

theorem countExit_cons (e : TEv) (tr : List TEv) :
    countExit (e :: tr) = countExit tr + (if e.kind = EvKind.exit then 1 else 0) := by
  simp [countExit, List.countP_cons]

theorem step_active_enter (s : WD) (t : Int) :
    (step s ⟨t, EvKind.enter⟩).active = s.active + 1 := by
  rcases h : s.timerRef with _ | id <;> simp [step, h]

theorem step_active_exit (s : WD) (t : Int) :
    (step s ⟨t, EvKind.exit⟩).active = s.active - 1 := by
  simp only [step]
  split_ifs <;> rfl

theorem step_active_stop (s : WD) (t : Int) :
    (step s ⟨t, EvKind.stop⟩).active = s.active := by
  rcases h : s.timerRef with _ | id <;> simp [step, h]

theorem step_active_trigger (s : WD) (t : Int) (id : Nat) :
    (step s ⟨t, EvKind.trigger id⟩).active = s.active := by
  rcases h : s.timers[id]? with _ | c
  · simp [step, h]
  · by_cases h2 : c.status = TStatus.scheduled <;> simp [step, h, h2]

theorem step_active_deliver (s : WD) (t : Int) (id : Nat) :
    (step s ⟨t, EvKind.deliver id⟩).active = s.active := by
  rcases h : s.timers[id]? with _ | c
  · simp [step, h]
  · by_cases h2 : c.status = TStatus.pending <;> simp [step, h, h2]

theorem step_stop_fires (s : WD) (t : Int) :
    (step s ⟨t, EvKind.stop⟩).fires = s.fires := by
  rcases h : s.timerRef with _ | id <;> simp [step, h]

theorem step_fires_of_active_pos (s : WD) (t : Int) (k : EvKind) (h : 0 < s.active) :
    (step s ⟨t, k⟩).fires = s.fires := by
  cases k with
  | enter => rcases hr : s.timerRef with _ | id <;> simp [step, hr]
  | exit =>
      simp only [step]
      split_ifs <;> rfl
  | stop => rcases hr : s.timerRef with _ | id <;> simp [step, hr]
  | trigger id =>
      rcases hr : s.timers[id]? with _ | c
      · simp [step, hr]
      · by_cases h2 : c.status = TStatus.scheduled <;> simp [step, hr, h2]
  | deliver id =>
      rcases hr : s.timers[id]? with _ | c
      · simp [step, hr]
      · have hne : ¬ s.active = 0 := by omega
        by_cases h2 : c.status = TStatus.pending <;> simp [step, hr, h2, hne]

theorem active_run_eq (tr : List TEv) : ∀ s : WD,
    (run s tr).active = s.active + (countEnter tr : Int) - (countExit tr : Int) := by
  induction tr with
  | nil => intro s; simp [run, countEnter, countExit]
  | cons e tr ih =>
      intro s
      rw [run_cons, ih]
      rcases e with ⟨t, k⟩
      cases k with
      | enter => rw [step_active_enter, countEnter_cons, countExit_cons]; simp; ring
      | exit => rw [step_active_exit, countEnter_cons, countExit_cons]; simp; ring
      | stop => rw [step_active_stop, countEnter_cons, countExit_cons]; simp
      | trigger id => rw [step_active_trigger, countEnter_cons, countExit_cons]; simp
      | deliver id => rw [step_active_deliver, countEnter_cons, countExit_cons]; simp

theorem step_phi_enter (s : WD) (t : Int) :
    phi (step s ⟨t, EvKind.enter⟩) ≤ phi s + 1 := by
  rcases h : s.timerRef with _ | id
  · simp [step, h, phi]
    omega
  · have hc := liveCount_cancel_le s.timers id
    simp [step, h, phi]
    omega

theorem step_phi_other (s : WD) (t : Int) (k : EvKind) (hk : k ≠ EvKind.enter) :
    phi (step s ⟨t, k⟩) ≤ phi s := by
  cases k with
  | enter => exact absurd rfl hk
  | exit =>
      by_cases hc : (s.active - 1 = 0 ∧ s.timerActive = false)
      · simp only [step, phi, if_pos hc]
        rcases hc with ⟨h0, -⟩
        simp [liveCount_append, statusLive]
        omega
      · simp only [step, phi, if_neg hc]
        simp
        omega
  | stop =>
      rcases h : s.timerRef with _ | id
      · simp [step, h, phi]
      · have hc := liveCount_cancel_le s.timers id
        simp [step, h, phi]
        omega
  | trigger id =>
      rcases h : s.timers[id]? with _ | c
      · simp [step, h, phi]
      · by_cases h2 : c.status = TStatus.scheduled
        · have e1 := @liveCount_setStatus s.timers id c TStatus.pending h
          rw [h2] at e1
          simp [statusLive] at e1
          simp [step, h, h2, phi]
          omega
        · simp [step, h, h2, phi]
  | deliver id =>
      rcases h : s.timers[id]? with _ | c
      · simp [step, h, phi]
      · by_cases h2 : c.status = TStatus.pending
        · have e1 := @liveCount_setStatus s.timers id c TStatus.dead h
          rw [h2] at e1
          simp [statusLive] at e1
          by_cases h3 : s.active = 0 <;> simp [step, h, h2, h3, phi] <;> omega
        · simp [step, h, h2, phi]

theorem phi_run (tr : List TEv) : ∀ s : WD,
    phi (run s tr) ≤ phi s + (countEnter tr : Int) := by
  induction tr with
  | nil => intro s; simp [run, countEnter]
  | cons e tr ih =>
      intro s
      have h2 := ih (step s e)
      rw [run_cons, countEnter_cons]
      rcases e with ⟨t, k⟩
      by_cases hk : k = EvKind.enter
      · subst hk
        have h1 := step_phi_enter s t
        simp
        omega
      · have h1 := step_phi_other s t k hk
        simp [hk]
        omega

theorem run_quiet (rest : List TEv) : ∀ s : WD,
    s.timerActive = true → liveCount s.timers = 0 →
    (∀ e ∈ rest, e.kind ≠ EvKind.enter) →
    (run s rest).fires = s.fires ∧ (run s rest).timerActive = true ∧
      liveCount (run s rest).timers = 0 := by
  induction rest with
  | nil => intro s h1 h2 _; exact ⟨rfl, h1, h2⟩
  | cons e rest ih =>
      intro s h1 h2 hne
      have hek : e.kind ≠ EvKind.enter := hne e (by simp)
      have hdead : ∀ (id : Nat) (c : TimerC), s.timers[id]? = some c → statusLive c.status = false := by
        intro id c hc
        have hmem : c ∈ s.timers := List.getElem?_mem hc
        have h0 := List.countP_eq_zero.mp h2 c hmem
        simp at h0
        exact h0
      have hstep : (step s e).fires = s.fires ∧ (step s e).timerActive = true ∧
          liveCount (step s e).timers = 0 := by
        rcases e with ⟨t, k⟩
        cases k with
        | enter => exact absurd rfl hek
        | exit =>
            have hcond : ¬(s.active - 1 = 0 ∧ s.timerActive = false) := by
              rintro ⟨-, hf⟩
              rw [h1] at hf
              cases hf
            simp [step, hcond, h1, h2]
        | stop =>
            rcases h : s.timerRef with _ | id
            · simp [step, h, h1, h2]
            · have hc := liveCount_cancel_le s.timers id
              simp [step, h, h1]
              omega
        | trigger id =>
            rcases h : s.timers[id]? with _ | c
            · simp [step, h, h1, h2]
            · have hns : ¬ c.status = TStatus.scheduled := by
                intro hcs
                have := hdead id c h
                rw [hcs] at this
                simp [statusLive] at this
              simp [step, h, hns, h1, h2]
        | deliver id =>
            rcases h : s.timers[id]? with _ | c
            · simp [step, h, h1, h2]
            · have hns : ¬ c.status = TStatus.pending := by
                intro hcs
                have := hdead id c h
                rw [hcs] at this
                simp [statusLive] at this
              simp [step, h, hns, h1, h2]
      rcases hstep with ⟨f1, f2, f3⟩
      have hrest := ih (step s e) f2 f3 (fun x hx => hne x (by simp [hx]))
      rw [run_cons]
      exact ⟨by rw [hrest.1, f1], hrest.2.1, hrest.2.2⟩

theorem wfFrom_take (tr : List TEv) : ∀ (s : WD) (now : Int) (n : Nat),
    wfFrom s now tr = true → wfFrom s now (tr.take n) = true := by
  induction tr with
  | nil => intro s now n _; simp [List.take_nil]; rfl
  | cons e rest ih =>
      intro s now n h
      cases n with
      | zero => rfl
      | succ m =>
          simp only [List.take]
          simp only [wfFrom, Bool.and_eq_true] at h ⊢
          exact ⟨h.1, ih _ _ m h.2⟩

theorem active_nonneg_of_wf (tr : List TEv) : ∀ (s : WD) (now : Int),
    wfFrom s now tr = true → 0 ≤ s.active → 0 ≤ (run s tr).active := by
  induction tr with
  | nil => intro s now _ h; exact h
  | cons e rest ih =>
      intro s now h h0
      simp only [wfFrom, Bool.and_eq_true] at h
      rcases h with ⟨⟨-, hok⟩, hrest⟩
      rw [run_cons]
      refine ih (step s e) e.time hrest ?_
      rcases e with ⟨t, k⟩
      cases k with
      | enter => rw [step_active_enter]; omega
      | exit =>
          simp only [okEvent, decide_eq_true_eq] at hok
          rw [step_active_exit]
          omega
      | stop => rw [step_active_stop]; omega
      | trigger id => rw [step_active_trigger]; omega
      | deliver id => rw [step_active_deliver]; omega

theorem cancelTimer_idem (ts : List TimerC) (id : Nat) :
    cancelTimer (cancelTimer ts id) id = cancelTimer ts id := by
  rcases h : ts[id]? with _ | c
  · simp [cancelTimer, h]
  · by_cases h2 : c.status = TStatus.scheduled
    · have hg := @setStatus_get?_eq ts id c TStatus.dead h
      simp [cancelTimer, h, h2, hg]
    · simp [cancelTimer, h, h2]

/-- C1 counterexample: a legal event sequence on which `onInactive` is
invoked twice (at instants 10 and 22): the initial timer fires with no
request in flight, then one request enters and exits, `decrement`
re-arms a fresh timer, and that timer fires again.  The code has no
`shutdown_fired` flag, so the callback is not invoked at most once over
the watchdog lifetime. -/
theorem onInactive_invoked_twice :
    wfFrom (mkNew 10 0) 0
      [⟨10, EvKind.trigger 0⟩, ⟨10, EvKind.deliver 0⟩, ⟨11, EvKind.enter⟩,
       ⟨12, EvKind.exit⟩, ⟨22, EvKind.trigger 1⟩, ⟨22, EvKind.deliver 1⟩] = true ∧
    (run (mkNew 10 0)
      [⟨10, EvKind.trigger 0⟩, ⟨10, EvKind.deliver 0⟩, ⟨11, EvKind.enter⟩,
       ⟨12, EvKind.exit⟩, ⟨22, EvKind.trigger 1⟩, ⟨22, EvKind.deliver 1⟩]).fires = [22, 10] :=
  ⟨by decide, by decide⟩

/-- C1 (amended): over every event sequence, the number of `onInactive`
invocations is at most one more than the number of request entries; in
particular the callback is invoked at most once on any sequence without
request entries, and every invocation beyond the first requires an
intervening request. -/
theorem fires_le_one_plus_enters (timeout t0 : Int) (tr : List TEv) :
    (run (mkNew timeout t0) tr).fires.length ≤ 1 + countEnter tr := by
  have h := phi_run tr (mkNew timeout t0)
  have h2 : phi (mkNew timeout t0) = 1 := by
    simp [phi, mkNew, liveCount, List.countP_cons, statusLive]
  rw [h2] at h
  have h3 : ((run (mkNew timeout t0) tr).fires.length : Int)
      ≤ phi (run (mkNew timeout t0) tr) := by
    simp only [phi]
    omega
  have h4 : ((run (mkNew timeout t0) tr).fires.length : Int)
      ≤ 1 + (countEnter tr : Int) := le_trans h3 h
  exact_mod_cast h4

/-- C2 counterexample: `Shutdown` at instant 5 (before any invocation,
`fires = []` there), then one request enters and exits; `decrement`
re-arms a fresh timer which fires at 17 and invokes the callback — a
legal sequence on which stopping did not suppress the callback
permanently. -/
theorem stop_not_permanent :
    wfFrom (mkNew 10 0) 0
      [⟨5, EvKind.stop⟩, ⟨6, EvKind.enter⟩, ⟨7, EvKind.exit⟩,
       ⟨17, EvKind.trigger 1⟩, ⟨17, EvKind.deliver 1⟩] = true ∧
    (run (mkNew 10 0) [⟨5, EvKind.stop⟩]).fires = [] ∧
    (run (mkNew 10 0)
      [⟨5, EvKind.stop⟩, ⟨6, EvKind.enter⟩, ⟨7, EvKind.exit⟩,
       ⟨17, EvKind.trigger 1⟩, ⟨17, EvKind.deliver 1⟩]).fires = [17] :=
  ⟨by decide, by decide, by decide⟩

/-- C2 (amended): `Shutdown` suppresses the callback only under
quiescent conditions: if after the `Shutdown` step the `timerActive`
flag is still set and no live (scheduled or expired-but-undelivered)
timer remains, then the callback is never invoked as long as no request
entry occurs.  A request entry after `Shutdown` (or a pending stale
fire, or an in-flight request at `Shutdown` time) can lead to a later
invocation, as the counterexample shows. -/
theorem stop_then_quiet_suppresses (s1 : WD) (t : Int) (rest : List TEv)
    (h0 : s1.fires = [])
    (h1 : (step s1 ⟨t, EvKind.stop⟩).timerActive = true)
    (h2 : liveCount (step s1 ⟨t, EvKind.stop⟩).timers = 0)
    (h3 : ∀ e ∈ rest, e.kind ≠ EvKind.enter) :
    (run (step s1 ⟨t, EvKind.stop⟩) rest).fires = [] := by
  have h4 := run_quiet rest (step s1 ⟨t, EvKind.stop⟩) h1 h2 h3
  rw [h4.1, step_stop_fires, h0]

theorem stop_then_quiet_suppresses_witness :
    (mkNew 10 0).fires = [] ∧
    (step (mkNew 10 0) ⟨0, EvKind.stop⟩).timerActive = true ∧
    liveCount (step (mkNew 10 0) ⟨0, EvKind.stop⟩).timers = 0 ∧
    (∀ e ∈ [(⟨1, EvKind.stop⟩ : TEv), ⟨2, EvKind.exit⟩], e.kind ≠ EvKind.enter) ∧
    (run (step (mkNew 10 0) ⟨0, EvKind.stop⟩)
      [⟨1, EvKind.stop⟩, ⟨2, EvKind.exit⟩]).fires = [] :=
  ⟨by decide, by decide, by decide, by decide,
   stop_then_quiet_suppresses (mkNew 10 0) 0 [⟨1, EvKind.stop⟩, ⟨2, EvKind.exit⟩]
     (by decide) (by decide) (by decide) (by decide)⟩

/-- C3 counterexample: the timer fires at 10 while one request is in
flight (entered at 10); the body runs at 11 without invoking the
callback; the request exits at 12, the in-flight count reaches 0 — and
at that moment no callback has been invoked (`fires = []`) and a fresh
timer has been armed (`timerActive = true`): shutdown does not follow
upon drain completion. -/
theorem fired_draining_not_shutdown :
    wfFrom (mkNew 10 0) 0
      [⟨10, EvKind.trigger 0⟩, ⟨10, EvKind.enter⟩, ⟨11, EvKind.deliver 0⟩,
       ⟨12, EvKind.exit⟩] = true ∧
    (run (mkNew 10 0)
      [⟨10, EvKind.trigger 0⟩, ⟨10, EvKind.enter⟩, ⟨11, EvKind.deliver 0⟩,
       ⟨12, EvKind.exit⟩]).fires = [] ∧
    (run (mkNew 10 0)
      [⟨10, EvKind.trigger 0⟩, ⟨10, EvKind.enter⟩, ⟨11, EvKind.deliver 0⟩,
       ⟨12, EvKind.exit⟩]).timerActive = true :=
  ⟨by decide, by decide, by decide⟩

/-- C3 (amended): when the timer body runs with requests in flight, the
callback is not invoked; and when the in-flight count then drains to
zero (the final `decrement` with `timerActive = false`), still no
callback is invoked at that moment — instead a fresh timer is armed for
a full `timeout` from the drain instant.  Shutdown happens only if that
later timer fires with the count still zero. -/
theorem drain_rearms_full_timeout (s : WD) (t : Int) (id : Nat) :
    (s.active ≠ 0 → (step s ⟨t, EvKind.deliver id⟩).fires = s.fires) ∧
    (s.active = 1 → s.timerActive = false →
      (step s ⟨t, EvKind.exit⟩).fires = s.fires ∧
      (step s ⟨t, EvKind.exit⟩).timerActive = true ∧
      (step s ⟨t, EvKind.exit⟩).timers
        = s.timers ++ [⟨t + s.timeout, TStatus.scheduled⟩]) := by
  constructor
  · intro h
    rcases hr : s.timers[id]? with _ | c
    · simp [step, hr]
    · by_cases h2 : c.status = TStatus.pending <;> simp [step, hr, h2, h]
  · intro h1 h2
    have hc : s.active - 1 = 0 ∧ s.timerActive = false := ⟨by omega, h2⟩
    simp only [step]
    rw [if_pos hc]
    exact ⟨rfl, rfl, rfl⟩

theorem drain_rearms_full_timeout_witness :
    (sDrain.active = 1 ∧ sDrain.timerActive = false) ∧
    (step sDrain ⟨12, EvKind.deliver 0⟩).fires = sDrain.fires ∧
    ((step sDrain ⟨12, EvKind.exit⟩).fires = sDrain.fires ∧
     (step sDrain ⟨12, EvKind.exit⟩).timerActive = true ∧
     (step sDrain ⟨12, EvKind.exit⟩).timers
       = sDrain.timers ++ [⟨12 + sDrain.timeout, TStatus.scheduled⟩]) :=
  ⟨⟨by decide, by decide⟩,
   (drain_rearms_full_timeout sDrain 12 0).1 (by decide),
   (drain_rearms_full_timeout sDrain 12 0).2 (by decide) (by decide)⟩

/-- C4 counterexample: `New` with the non-positive timeout -5 is not
rejected: it returns a fully armed watchdog (`timerActive = true`,
`timer` non-nil), whose timer may legally expire at once and whose
delivery invokes the callback — a usable watchdog handle. -/
theorem nonpositive_timeout_accepted :
    (mkNew (-5) 0).timerActive = true ∧
    (mkNew (-5) 0).timerRef = some 0 ∧
    wfFrom (mkNew (-5) 0) 0 [⟨0, EvKind.trigger 0⟩, ⟨0, EvKind.deliver 0⟩] = true ∧
    (run (mkNew (-5) 0) [⟨0, EvKind.trigger 0⟩, ⟨0, EvKind.deliver 0⟩]).fires = [0] :=
  ⟨by decide, by decide, by decide, by decide⟩

/-- C4 (amended): `New` performs no validation of its timeout: for
every timeout, including non-positive ones, it returns a watchdog with
an armed timer due at construction time plus the timeout, and a
non-positive timeout makes that timer immediately eligible to fire. -/
theorem mkNew_no_validation (timeout t0 : Int) :
    (mkNew timeout t0).timerActive = true ∧
    (mkNew timeout t0).timerRef = some 0 ∧
    (mkNew timeout t0).timers = [⟨t0 + timeout, TStatus.scheduled⟩] ∧
    (timeout ≤ 0 → okEvent (mkNew timeout t0) ⟨t0, EvKind.trigger 0⟩ = true) := by
  refine ⟨rfl, rfl, rfl, fun h => ?_⟩
  simp [okEvent, mkNew]
  omega

theorem mkNew_no_validation_witness :
    ((-5 : Int) ≤ 0) ∧ okEvent (mkNew (-5) 0) ⟨0, EvKind.trigger 0⟩ = true :=
  ⟨by decide, (mkNew_no_validation (-5) 0).2.2.2 (by decide)⟩

/-- C5: while some request is in flight (strictly more entries than
exits so far), no event — in particular no timer-body delivery — can
invoke `onInactive`: the body's `active == 0` recheck fails, so the
callback waits for every in-flight request to complete. -/
theorem no_fire_while_inflight (timeout t0 : Int) (front : List TEv) (e : TEv)
    (h : countExit front < countEnter front) :
    (run (mkNew timeout t0) (front ++ [e])).fires
      = (run (mkNew timeout t0) front).fires := by
  rw [run_append]
  have ha := active_run_eq front (mkNew timeout t0)
  have hpos : 0 < (run (mkNew timeout t0) front).active := by
    rw [ha]
    have hcast : (countExit front : Int) < (countEnter front : Int) := by exact_mod_cast h
    simp [mkNew]
    omega
  rcases e with ⟨t, k⟩
  exact step_fires_of_active_pos _ t k hpos

theorem no_fire_while_inflight_witness :
    countExit [(⟨1, EvKind.enter⟩ : TEv)] < countEnter [(⟨1, EvKind.enter⟩ : TEv)] ∧
    (run (mkNew 10 0) ([(⟨1, EvKind.enter⟩ : TEv)] ++ [⟨2, EvKind.deliver 0⟩])).fires
      = (run (mkNew 10 0) [(⟨1, EvKind.enter⟩ : TEv)]).fires :=
  ⟨by decide,
   no_fire_while_inflight 10 0 [⟨1, EvKind.enter⟩] ⟨2, EvKind.deliver 0⟩ (by decide)⟩

/-- C6 (code bug, race): with timeout 10, the timer expires at instant
10; before its body runs, a request enters at 10 and exits at 10; the
stale body then runs, sees `active == 0`, and invokes `onInactive` at
instant 10 — although a request entered at T = 10 and no invocation
should occur before T + timeout = 20.  The whole sequence is legal. -/
theorem stale_fire_before_deadline :
    wfFrom (mkNew 10 0) 0
      [⟨10, EvKind.trigger 0⟩, ⟨10, EvKind.enter⟩, ⟨10, EvKind.exit⟩,
       ⟨10, EvKind.deliver 0⟩] = true ∧
    (run (mkNew 10 0)
      [⟨10, EvKind.trigger 0⟩, ⟨10, EvKind.enter⟩, ⟨10, EvKind.exit⟩,
       ⟨10, EvKind.deliver 0⟩]).fires = [10] :=
  ⟨by decide, by decide⟩

/-- C7: under every well-formed interleaving (each exit paired with a
prior entry), the in-flight counter is never negative at any prefix of
the run. -/
theorem inflight_never_negative (timeout t0 : Int) (tr : List TEv) (n : Nat)
    (h : wfFrom (mkNew timeout t0) t0 tr = true) :
    0 ≤ (run (mkNew timeout t0) (tr.take n)).active :=
  active_nonneg_of_wf (tr.take n) (mkNew timeout t0) t0
    (wfFrom_take tr (mkNew timeout t0) t0 n h) (by simp [mkNew])

theorem inflight_never_negative_witness :
    wfFrom (mkNew 10 0) 0 [(⟨1, EvKind.enter⟩ : TEv), ⟨2, EvKind.exit⟩] = true ∧
    0 ≤ (run (mkNew 10 0) ([(⟨1, EvKind.enter⟩ : TEv), ⟨2, EvKind.exit⟩].take 1)).active :=
  ⟨by decide,
   inflight_never_negative 10 0 [⟨1, EvKind.enter⟩, ⟨2, EvKind.exit⟩] 1 (by decide)⟩

/-- C8: for every request through the `Wrap`-generated handler, whether
the inner handler returns normally or panics, the outcome propagates
unchanged, the deferred exit accounting (`decrement`) runs after the
entry accounting (`increment`), and the net effect on the in-flight
counter is zero. -/
theorem wrap_exit_accounting_all_paths (s : WD) (tIn tOut : Int) (inner : HOutcome) :
    (wrapServe s tIn tOut inner).1 = inner ∧
    (wrapServe s tIn tOut inner).2
      = step (step s ⟨tIn, EvKind.enter⟩) ⟨tOut, EvKind.exit⟩ ∧
    ((wrapServe s tIn tOut inner).2).active = s.active := by
  have h1 := step_active_enter s tIn
  have h2 := step_active_exit (step s ⟨tIn, EvKind.enter⟩) tOut
  cases inner <;>
    exact ⟨rfl, rfl, by
      show (step (step s ⟨tIn, EvKind.enter⟩) ⟨tOut, EvKind.exit⟩).active = s.active
      rw [h2, h1]
      omega⟩

/-- C9: `Shutdown` is idempotent — a second `Shutdown` leaves the state
exactly as after the first — and it is a no-op whenever the `timer`
field is nil, in particular after the timer body has run (the body sets
`timer = nil`). -/
theorem shutdown_idempotent_noop (s : WD) (t u : Int) :
    step (step s ⟨t, EvKind.stop⟩) ⟨u, EvKind.stop⟩ = step s ⟨t, EvKind.stop⟩ ∧
    (s.timerRef = none → step s ⟨t, EvKind.stop⟩ = s) := by
  constructor
  · rcases h : s.timerRef with _ | id
    · simp [step, h]
    · simp [step, h, cancelTimer_idem]
  · intro h
    simp [step, h]

theorem shutdown_idempotent_noop_witness :
    (step (mkNew 10 0) ⟨1, EvKind.enter⟩).timerRef = none ∧
    step (step (mkNew 10 0) ⟨1, EvKind.enter⟩) ⟨2, EvKind.stop⟩
      = step (mkNew 10 0) ⟨1, EvKind.enter⟩ :=
  ⟨by decide,
   (shutdown_idempotent_noop (step (mkNew 10 0) ⟨1, EvKind.enter⟩) 2 0).2 (by decide)⟩

/-- C10: the invariant `Inv` — the `timerActive` flag mirrors the
`timer` field, and whenever the in-flight count is positive both are
disarmed (`timerActive = false`, `timer = nil`) — holds at construction
and is preserved by every operation (request entry, request exit, timer
expiry, timer body, `Shutdown`).  Request entry fully disarms the
pending deadline; a deadline is re-armed only when the count returns to
zero. -/
theorem inflight_disarmed_invariant :
    (∀ timeout t0 : Int, Inv (mkNew timeout t0)) ∧
    (∀ (s : WD) (e : TEv), Inv s → Inv (step s e)) := by
  constructor
  · intro timeout t0
    exact ⟨rfl, fun h => absurd h (by simp [mkNew])⟩
  · rintro s ⟨t, k⟩ ⟨i0, i1⟩
    cases k with
    | enter =>
        rcases h : s.timerRef with _ | id
        · have hA : s.timerActive = false := by rw [i0, h]; rfl
          refine ⟨?_, fun _ => ⟨?_, ?_⟩⟩ <;> simp [step, h, hA]
        · refine ⟨?_, fun _ => ⟨?_, ?_⟩⟩ <;> simp [step, h]
    | exit =>
        by_cases hc : (s.active - 1 = 0 ∧ s.timerActive = false)
        · constructor
          · show (step s ⟨t, EvKind.exit⟩).timerActive
                = (step s ⟨t, EvKind.exit⟩).timerRef.isSome
            simp only [step]
            rw [if_pos hc]
            rfl
          · intro hp
            rw [step_active_exit] at hp
            exact absurd hp (by omega)
        · have hae := step_active_exit s t
          constructor
          · show (step s ⟨t, EvKind.exit⟩).timerActive
                = (step s ⟨t, EvKind.exit⟩).timerRef.isSome
            simp only [step]
            rw [if_neg hc]
            exact i0
          · intro hp
            rw [hae] at hp
            have h3 := i1 (by omega)
            constructor
            · show (step s ⟨t, EvKind.exit⟩).timerActive = false
              simp only [step]
              rw [if_neg hc]
              exact h3.1
            · show (step s ⟨t, EvKind.exit⟩).timerRef = none
              simp only [step]
              rw [if_neg hc]
              exact h3.2
    | stop =>
        rcases h : s.timerRef with _ | id
        · simp only [step, h]
          exact ⟨i0, i1⟩
        · simp only [step, h]
          refine ⟨?_, fun hp => ?_⟩
          · rw [← h]
            exact i0
          · have h3 := i1 hp
            rw [h] at h3
            exact absurd h3.2 (by simp)
    | trigger id =>
        rcases h : s.timers[id]? with _ | c
        · simp only [step, h]
          exact ⟨i0, i1⟩
        · by_cases h2 : c.status = TStatus.scheduled
          · simp only [step, h]
            rw [if_pos h2]
            exact ⟨i0, i1⟩
          · simp only [step, h]
            rw [if_neg h2]
            exact ⟨i0, i1⟩
    | deliver id =>
        rcases h : s.timers[id]? with _ | c
        · simp only [step, h]
          exact ⟨i0, i1⟩
        · by_cases h2 : c.status = TStatus.pending
          · simp only [step, h]
            rw [if_pos h2]
            exact ⟨rfl, fun _ => ⟨rfl, rfl⟩⟩
          · simp only [step, h]
            rw [if_neg h2]
            exact ⟨i0, i1⟩

theorem inflight_disarmed_invariant_witness :
    Inv (mkNew 10 0) ∧ Inv (step (mkNew 10 0) ⟨1, EvKind.enter⟩) :=
  ⟨⟨rfl, fun h => absurd h (by decide)⟩,
   inflight_disarmed_invariant.2 (mkNew 10 0) ⟨1, EvKind.enter⟩
     ⟨rfl, fun h => absurd h (by decide)⟩⟩

end Inactivity
